import Mathlib

/-!
# Model of the bdsm-cmp-bot registry, persistence, cache and listing

Shallow embedding of `src/main.rs`.  Rust `String` is modelled as `List Char`
(`Str`) with its lexicographic order, `BTreeMap` as a key-sorted association
list, `HashMap` as an unsorted association list, `chrono::DateTime<Utc>` as
Unix seconds (`Nat`), and the files touched by `persist` as an explicit
`Disk` record.  The external scoring service and the chat platform's member
directory are oracles passed in as functions.
-/

namespace BdsmBot

/-- Rust `String`, as its character sequence (with Rust's lexicographic `Ord`). -/
abbrev Str := List Char

/-- Model strings written from literals. -/
def str (s : String) : Str := s.data

/-! ## `BTreeMap` model: key-sorted association lists -/

/-- `BTreeMap::insert` (also the net effect of writing through the reference a
get-or-insert entry call returns): insert keeping keys sorted, replacing the
value when the key is already present. -/
def alInsert {κ α : Type} [LinearOrder κ] : List (κ × α) → κ → α → List (κ × α)
  | [], k, v => [(k, v)]
  | (k', w) :: rest, k, v =>
    if k < k' then (k, v) :: (k', w) :: rest
    else if k' < k then (k', w) :: alInsert rest k v
    else (k, v) :: rest

/-- `BTreeMap::get`. -/
def alLookup {κ α : Type} [DecidableEq κ] : List (κ × α) → κ → Option α
  | [], _ => none
  | (k', w) :: rest, k => if k = k' then some w else alLookup rest k

/-- `BTreeMap::remove` (the resulting map). -/
def alRemove {κ α : Type} [DecidableEq κ] : List (κ × α) → κ → List (κ × α)
  | [], _ => []
  | (k', w) :: rest, k => if k = k' then rest else (k', w) :: alRemove rest k

/-- Rust `Iterator::max_by_key(|h| h.0)`: the maximum-key entry, the last one
winning ties (map keys are unique, so ties do not arise here). -/
def maxByKey {κ α : Type} [LinearOrder κ] (l : List (κ × α)) : Option (κ × α) :=
  match l with
  | [] => none
  | x :: rest => some (rest.foldl (fun acc y => if acc.1 ≤ y.1 then y else acc) x)

/-! ## Data model (`HeadmateData`, `UserData`, `GuildData`, `GlobalData`) -/

/-- `HeadmateData`: `results: BTreeMap<DateTime<Utc>, String>`. -/
structure HeadmateData where
  results : List (Nat × Str)
deriving DecidableEq

/-- `HeadmateData::default()`. -/
def HeadmateData.default : HeadmateData := ⟨[]⟩

structure UserData where
  primary : Option HeadmateData
  headmates : List (Str × HeadmateData)
deriving DecidableEq

/-- `UserData::default()`. -/
def UserData.default : UserData := ⟨none, []⟩

/-- `UserData::headmate`. -/
def UserData.headmate (u : UserData) (name : Option Str) : Option HeadmateData :=
  match name with
  | some n => alLookup u.headmates n
  | none => u.primary

/-- `UserData::headmate_mut`: `entry(name).or_default()` resp.
`primary.get_or_insert_with(default)`.  Returns the record the `&mut`
reference denotes together with the updated `UserData`. -/
def UserData.headmate_mut (u : UserData) (name : Option Str) : HeadmateData × UserData :=
  match name with
  | some n =>
    let r := (alLookup u.headmates n).getD HeadmateData.default
    (r, { u with headmates := alInsert u.headmates n r })
  | none =>
    let r := u.primary.getD HeadmateData.default
    (r, { u with primary := some r })

/-- Overwriting the record behind the reference returned by `headmate_mut`. -/
def UserData.headmateWrite (u : UserData) (name : Option Str) (c : HeadmateData) : UserData :=
  match name with
  | some n => { u with headmates := alInsert u.headmates n c }
  | none => { u with primary := some c }

/-- Number of candidate entities one user contributes to a listing:
the optional primary plus every headmate. -/
def UserData.entityCount (u : UserData) : Nat :=
  (match u.primary with | some _ => 1 | none => 0) + u.headmates.length

structure GuildData where
  users : List (Nat × UserData)
deriving DecidableEq

/-- `GuildData::default()`. -/
def GuildData.default : GuildData := ⟨[]⟩

structure GlobalData where
  guilds : List (Nat × GuildData)
deriving DecidableEq

/-- `GlobalData::guild`. -/
def GlobalData.guild (g : GlobalData) (id : Nat) : Option GuildData :=
  alLookup g.guilds id

/-! ## `Matchup` cache and `get_match` -/

/-- `Matchup::new`: canonical unordered pair, lexicographically smaller
identifier first. -/
def Matchup.new (a b : Str) : Str × Str :=
  if a < b then (a, b) else (b, a)

/-- `HashMap<Matchup, u32>` as an association list; a newer binding for a key
shadows any older one. -/
abbrev Cache := List ((Str × Str) × Nat)

/-- `HashMap::get`. -/
def cacheFind : Cache → Str × Str → Option Nat
  | [], _ => none
  | (k, s) :: rest, q => if q = k then some s else cacheFind rest q

/-- `get_match`: memoized scoring call.  `svc` is the external scoring service
(deterministic per request, `none` modelling a failed call).  Returns the
score result, the updated cache, and whether an external request was issued. -/
def get_match (svc : Str → Str → Option Nat) (cache : Cache) (person partner : Str) :
    Option Nat × Cache × Bool :=
  let key := Matchup.new person partner
  match cacheFind cache key with
  | some score => (some score, cache, false)
  | none =>
    match svc person partner with
    | some score => (some score, (key, score) :: cache, true)
    | none => (none, cache, true)

/-- Cache state after a further sequence of `get_match` calls. -/
def runMatches (svc : Str → Str → Option Nat) (calls : List (Str × Str)) (cache : Cache) :
    Cache :=
  calls.foldl (fun c pq => (get_match svc c pq.1 pq.2).2.1) cache

/-! ## `persist_folder` and `persist` -/

/-- The files `persist` touches: the primary registry file and the four backup
folders.  A folder is an association list filename ↦ contents whose key order
mirrors `read_dir` + `sort_by_key(|f| f.path())`. -/
structure Disk where
  registry : Option Str
  history : List (Str × Str)
  hourly : List (Str × Str)
  daily : List (Str × Str)
  monthly : List (Str × Str)
deriving DecidableEq

/-- `usize::MAX` (64-bit target). -/
def usizeMAX : Nat := 2 ^ 64 - 1

/-- The pruning step of `persist_folder`: while more than `keep` files remain,
delete the oldest, i.e. lexicographically smallest, filenames. -/
def folderPrune (l : List (Str × Str)) (keep : Nat) : List (Str × Str) :=
  if l.length > keep then l.drop (l.length - keep) else l

/-- `persist_folder`: skip everything when the primary registry file does not
exist; otherwise copy it into the folder under `filename` and prune. -/
def persist_folder (registry : Option Str) (folder : List (Str × Str))
    (filename : Str) (keep : Nat) : List (Str × Str) :=
  match registry with
  | none => folder
  | some content => folderPrune (alInsert folder filename content) keep

/-- `format!("registry-{}.json", b)`. -/
def bucketName (b : Nat) : Str := str "registry-" ++ str (toString b) ++ str ".json"

/-- `persist`: history backup (before the primary-file overwrite), the
overwrite itself, then the hourly, daily and monthly backups (after the
overwrite).  `data` is the freshly serialized snapshot, `now` the wall-clock
Unix timestamp of this write. -/
def persist (data : Str) (now : Nat) (d : Disk) : Disk :=
  let history := persist_folder d.registry d.history (bucketName now) 20
  let registry : Option Str := some data
  let hourly := persist_folder registry d.hourly (bucketName (now / 60 / 60)) 24
  let daily := persist_folder registry d.daily (bucketName (now / 60 / 60 / 24)) 30
  let monthly :=
    persist_folder registry d.monthly (bucketName (now / 60 / 60 / 24 / 28)) usizeMAX
  ⟨registry, history, hourly, daily, monthly⟩

/-- A sequence of persist operations, each write a (serialized snapshot,
timestamp) pair. -/
def persistRun (writes : List (Str × Nat)) (d : Disk) : Disk :=
  writes.foldl (fun d w => persist w.1 w.2 d) d

/-! ## The `list_compatibility` fan-out loop -/

/-- Rust `score as i32` for a `u32` score. -/
def u32AsI32 (n : Nat) : Int :=
  if n % 2 ^ 32 < 2 ^ 31 then ((n % 2 ^ 32 : Nat) : Int)
  else ((n % 2 ^ 32 : Nat) : Int) - 2 ^ 32

/-- Display-name resolution for one user: `directory` is the chat platform's
member lookup; a failed lookup renders as an empty label for user id 1 and as
a Deleted User placeholder otherwise. -/
def memberLabel (directory : Nat → Option Str) (userId : Nat) : Str :=
  match directory userId with
  | some nm => str "**" ++ nm ++ str "**"
  | none => if userId = 1 then [] else str "**Deleted User**"

/-- Label of a headmate row: `format!("{member_name} ({headmate_name})")`. -/
def headmateLabel (memberName hname : Str) : Str :=
  memberName ++ str " (" ++ hname ++ str ")"

/-- Score-and-push for one entity record: resolve the partner's most-recent
result id, call `get_match`, and map a failed call to the `-1` sentinel.
`none` models the `expect("no partner result")` panic on an empty history. -/
def entityRow (svc : Str → Str → Option Nat) (cache : Cache) (mostRecent : Str)
    (label : Str) (h : HeadmateData) : Option ((Int × Str) × Cache) :=
  match maxByKey h.results with
  | none => none
  | some m =>
    let r := get_match svc cache mostRecent m.2
    some (((match r.1 with | some s => u32AsI32 s | none => -1), label), r.2.1)

/-- The inner loop over one user's headmates. -/
def headmateRows (svc : Str → Str → Option Nat) (mostRecent memberName : Str) :
    List (Str × HeadmateData) → Cache → Option (List (Int × Str) × Cache)
  | [], cache => some ([], cache)
  | (hname, h) :: rest, cache =>
    match entityRow svc cache mostRecent (headmateLabel memberName hname) h with
    | none => none
    | some (row, cache1) =>
      match headmateRows svc mostRecent memberName rest cache1 with
      | none => none
      | some (rows, cache2) => some (row :: rows, cache2)

/-- The rows one user contributes: the optional primary, then every headmate. -/
def userRows (svc : Str → Str → Option Nat) (mostRecent memberName : Str)
    (person : UserData) (cache : Cache) : Option (List (Int × Str) × Cache) :=
  match person.primary with
  | none => headmateRows svc mostRecent memberName person.headmates cache
  | some p =>
    match entityRow svc cache mostRecent memberName p with
    | none => none
    | some (row, cache1) =>
      match headmateRows svc mostRecent memberName person.headmates cache1 with
      | none => none
      | some (rows, cache2) => some (row :: rows, cache2)

/-- The fan-out loop of `list_compatibility` over `guild.users` — the subject
included, since the self-skip in the source is commented out.  `none` models
the `expect("no partner result")` panic aborting the command. -/
def collectRows (svc : Str → Str → Option Nat) (directory : Nat → Option Str)
    (mostRecent : Str) : List (Nat × UserData) → Cache → Option (List (Int × Str) × Cache)
  | [], cache => some ([], cache)
  | (uid, person) :: rest, cache =>
    match userRows svc mostRecent (memberLabel directory uid) person cache with
    | none => none
    | some (rows, cache1) =>
      match collectRows svc directory mostRecent rest cache1 with
      | none => none
      | some (rows1, cache2) => some (rows ++ rows1, cache2)

/-! ## Sorting and rendering of the listing -/

/-- The key of `results.sort_by_key(|(s, _)| -s)`. -/
def sortKey (row : Int × Str) : Int := -row.1

/-- `sort_by_key(|(s, _)| -s)`: a stable sort ascending in `-score`. -/
def sortRows (rows : List (Int × Str)) : List (Int × Str) :=
  rows.insertionSort (fun a b => sortKey a ≤ sortKey b)

/-- `format!("{score:02}")` for a non-negative score. -/
def fmtScore (s : Int) : Str :=
  if s < 10 then str "0" ++ str (toString s) else str (toString s)

/-- One output line: `- {name}: {score:02}%` or `- {name}: Invalid Result`. -/
def renderRow (row : Int × Str) : Str :=
  str "- " ++ row.2 ++ str ": " ++
    (if row.1 ≥ 0 then fmtScore row.1 ++ str "%" else str "Invalid Result") ++ str "\n"

/-- The rendered listing: collected rows sorted, one line per entity. -/
def renderRows (rows : List (Int × Str)) : List Str := (sortRows rows).map renderRow

/-! ## `remove_bdsm_results` -/

/-- The outcome of a command (`Result<(), anyhow::Error>` with the message). -/
inductive CmdResult where
  | ok : CmdResult
  | error : Str → CmdResult
deriving DecidableEq

/-- The caller's record as the command handlers reach it: guild then user,
each step a get-or-insert with the default. -/
def personOf (g : GlobalData) (guildId authorId : Nat) : UserData :=
  (alLookup ((alLookup g.guilds guildId).getD GuildData.default).users authorId).getD
    UserData.default

/-- The two not-found messages of `remove_bdsm_results`. -/
def removeErrMsg : Option Str → Str
  | some n => str "No entries found for (" ++ n ++ str ")"
  | none => str "No data for primary entry"

/-- `remove_bdsm_results` (the body between argument validation and the
reply): get-or-insert the guild and the caller's `UserData` (mutating the
registry even on the failure path), remove the named headmate or take the
primary, and persist on success.  Returns the in-memory registry, the disk,
whether `persist` ran, and the command outcome. -/
def remove_bdsm_results (serialize : GlobalData → Str) (now : Nat) (g : GlobalData)
    (disk : Disk) (guildId authorId : Nat) (headmate : Option Str) :
    GlobalData × Disk × Bool × CmdResult :=
  let gd := (alLookup g.guilds guildId).getD GuildData.default
  let person := (alLookup gd.users authorId).getD UserData.default
  match headmate with
  | some n =>
    match alLookup person.headmates n with
    | none =>
      (⟨alInsert g.guilds guildId ⟨alInsert gd.users authorId person⟩⟩, disk, false,
        .error (removeErrMsg (some n)))
    | some _ =>
      let person1 := { person with headmates := alRemove person.headmates n }
      let g1 : GlobalData := ⟨alInsert g.guilds guildId ⟨alInsert gd.users authorId person1⟩⟩
      (g1, persist (serialize g1) now disk, true, .ok)
  | none =>
    match person.primary with
    | none =>
      (⟨alInsert g.guilds guildId ⟨alInsert gd.users authorId person⟩⟩, disk, false,
        .error (removeErrMsg none))
    | some _ =>
      let person1 := { person with primary := none }
      let g1 : GlobalData := ⟨alInsert g.guilds guildId ⟨alInsert gd.users authorId person1⟩⟩
      (g1, persist (serialize g1) now disk, true, .ok)

/-- A results map obtained from a sequence of `BTreeMap::insert` calls (the
way `add_bdsm_result` builds a history). -/
def buildResults (inserts : List (Nat × Str)) : List (Nat × Str) :=
  inserts.foldl (fun m i => alInsert m i.1 i.2) []

/-- Every record present for this user has at least one result (the invariant
the command layer maintains and the listing loop relies on). -/
def UserData.allNonempty (u : UserData) : Bool :=
  (match u.primary with | some h => !h.results.isEmpty | none => true)
    && u.headmates.all fun p => !p.2.results.isEmpty

/-! ## Basic association-list lemmas -/

theorem alLookup_alInsert {κ α : Type} [LinearOrder κ] [DecidableEq κ]
    (l : List (κ × α)) (k : κ) (v : α) : alLookup (alInsert l k v) k = some v := by
  induction l with
  | nil => simp [alInsert, alLookup]
  | cons p rest ih =>
    obtain ⟨k', w⟩ := p
    by_cases h1 : k < k'
    · simp [alInsert, h1, alLookup]
    · by_cases h2 : k' < k
      · have hne : k ≠ k' := ne_of_gt h2
        simp [alInsert, h1, h2, alLookup, hne, ih]
      · simp [alInsert, h1, h2, alLookup]

theorem alInsert_ne_nil {κ α : Type} [LinearOrder κ]
    (l : List (κ × α)) (k : κ) (v : α) : alInsert l k v ≠ [] := by
  cases l with
  | nil => simp [alInsert]
  | cons p rest =>
    obtain ⟨k', w⟩ := p
    by_cases h1 : k < k' <;> by_cases h2 : k' < k <;> simp [alInsert, h1, h2]

theorem alInsert_mem_keys {κ α : Type} [LinearOrder κ]
    (l : List (κ × α)) (k : κ) (v : α) (q : κ) :
    q ∈ (alInsert l k v).map Prod.fst ↔ q = k ∨ q ∈ l.map Prod.fst := by
  induction l with
  | nil => simp [alInsert]
  | cons p rest ih =>
    obtain ⟨k', w⟩ := p
    by_cases h1 : k < k'
    · simp [alInsert, h1]
    · by_cases h2 : k' < k
      · simp [alInsert, h1, h2, ih]
        tauto
      · have : k = k' := le_antisymm (le_of_not_lt h2) (le_of_not_lt h1)
        subst this
        simp [alInsert, h1, h2]

theorem alInsert_keys_pairwise {κ α : Type} [LinearOrder κ]
    (l : List (κ × α)) (k : κ) (v : α)
    (h : l.Pairwise (fun p q => p.1 < q.1)) :
    (alInsert l k v).Pairwise (fun p q => p.1 < q.1) := by
  induction l with
  | nil => simp [alInsert]
  | cons p rest ih =>
    obtain ⟨k', w⟩ := p
    rw [List.pairwise_cons] at h
    by_cases h1 : k < k'
    · rw [alInsert]
      simp only [h1, if_true]
      refine List.Pairwise.cons ?_ (List.Pairwise.cons h.1 h.2)
      intro q hq
      rcases List.mem_cons.mp hq with rfl | hq
      · exact h1
      · exact lt_trans h1 (h.1 q hq)
    · by_cases h2 : k' < k
      · rw [alInsert]
        simp only [h1, h2, if_false, if_true]
        refine List.Pairwise.cons ?_ (ih h.2)
        intro q hq
        have hq' : q.1 = k ∨ q.1 ∈ rest.map Prod.fst := by
          have := (alInsert_mem_keys rest k v q.1).mp (List.mem_map_of_mem Prod.fst hq)
          exact this
        rcases hq' with hqk | hqr
        · rw [hqk]; exact h2
        · obtain ⟨r, hr, hr1⟩ := List.mem_map.mp hqr
          exact hr1 ▸ h.1 r hr
      · have : k = k' := le_antisymm (le_of_not_lt h2) (le_of_not_lt h1)
        subst this
        rw [alInsert]
        simp only [h1, h2, if_false]
        exact List.Pairwise.cons h.1 h.2

theorem alInsert_length_le {κ α : Type} [LinearOrder κ]
    (l : List (κ × α)) (k : κ) (v : α) :
    (alInsert l k v).length ≤ l.length + 1 := by
  induction l with
  | nil => simp [alInsert]
  | cons p rest ih =>
    obtain ⟨k', w⟩ := p
    by_cases h1 : k < k'
    · simp [alInsert, h1]
    · by_cases h2 : k' < k
      · simp only [alInsert, h1, if_false, h2, if_true, List.length_cons]
        omega
      · simp [alInsert, h1, h2]

theorem alInsert_append_of_forall_lt {κ α : Type} [LinearOrder κ]
    (l : List (κ × α)) (k : κ) (v : α) (h : ∀ p ∈ l, p.1 < k) :
    alInsert l k v = l ++ [(k, v)] := by
  induction l with
  | nil => simp [alInsert]
  | cons p rest ih =>
    obtain ⟨k', w⟩ := p
    have hk' : k' < k := h (k', w) (List.mem_cons_self _ _)
    rw [alInsert]
    simp only [not_lt_of_gt hk', if_false, hk', if_true]
    rw [ih fun p hp => h p (List.mem_cons_of_mem _ hp)]
    simp

theorem alLookup_of_mem_of_nodup {κ α : Type} [DecidableEq κ]
    (l : List (κ × α)) (k : κ) (v : α)
    (hmem : (k, v) ∈ l) (hnd : (l.map Prod.fst).Nodup) :
    alLookup l k = some v := by
  induction l with
  | nil => simp at hmem
  | cons p rest ih =>
    obtain ⟨k', w⟩ := p
    rw [List.map_cons, List.nodup_cons] at hnd
    rcases List.mem_cons.mp hmem with heq | hmem'
    · cases heq
      simp [alLookup]
    · have hk : k ≠ k' := by
        rintro rfl
        exact hnd.1 (List.mem_map.mpr ⟨(k, v), hmem', rfl⟩)
      simp only [alLookup, hk, if_false]
      exact ih hmem' hnd.2

/-! ## `maxByKey` lemmas -/

theorem maxByKey_spec {κ α : Type} [LinearOrder κ]
    (l : List (κ × α)) (hne : l ≠ []) :
    ∃ m, maxByKey l = some m ∧ m ∈ l ∧ ∀ p ∈ l, p.1 ≤ m.1 := by
  match l with
  | [] => exact absurd rfl hne
  | x :: rest =>
    have key : ∀ (rest : List (κ × α)) (x : κ × α),
        (rest.foldl (fun acc y => if acc.1 ≤ y.1 then y else acc) x = x
          ∨ rest.foldl (fun acc y => if acc.1 ≤ y.1 then y else acc) x ∈ rest)
        ∧ x.1 ≤ (rest.foldl (fun acc y => if acc.1 ≤ y.1 then y else acc) x).1
        ∧ ∀ p ∈ rest, p.1 ≤ (rest.foldl (fun acc y => if acc.1 ≤ y.1 then y else acc) x).1 := by
      intro rest
      induction rest with
      | nil => simp
      | cons y rest ih =>
        intro x
        rw [List.foldl_cons]
        obtain ⟨ihmem, ihle, ihall⟩ := ih (if x.1 ≤ y.1 then y else x)
        have hx : x.1 ≤ (if x.1 ≤ y.1 then y else x).1 := by
          by_cases h : x.1 ≤ y.1 <;> simp [h]
        have hy : y.1 ≤ (if x.1 ≤ y.1 then y else x).1 := by
          by_cases h : x.1 ≤ y.1 <;> simp [h]
          exact le_of_not_le h
        refine ⟨?_, le_trans hx ihle, ?_⟩
        · rcases ihmem with heq | hmem
          · rw [heq]
            by_cases h : x.1 ≤ y.1 <;> simp [h]
          · exact Or.inr (List.mem_cons_of_mem _ hmem)
        · intro p hp
          rcases List.mem_cons.mp hp with rfl | hp'
          · exact le_trans hy ihle
          · exact ihall p hp'
    obtain ⟨hmem, hle, hall⟩ := key rest x
    refine ⟨_, rfl, ?_, ?_⟩
    · rcases hmem with heq | hmem
      · rw [heq]; exact List.mem_cons_self _ _
      · exact List.mem_cons_of_mem _ hmem
    · intro p hp
      rcases List.mem_cons.mp hp with rfl | hp'
      · exact hle
      · exact hall p hp'

theorem maxByKey_nil_iff {κ α : Type} [LinearOrder κ] (l : List (κ × α)) :
    maxByKey l = none ↔ l = [] := by
  cases l <;> simp [maxByKey]

/-! ## C7: headmate get-or-insert round trip -/

/-- C7: for every `UserData` and optional headmate name, `headmate_mut(name)`
followed by writing record content `c` through the returned reference and then
calling `headmate(name)` returns `some c` (the exact content written);
`None` resolves to the primary slot and `Some n` to the headmate named `n`;
`headmate_mut` yields the existing record, or a freshly created empty record
on first access, and never fails. -/
theorem headmate_roundtrip (u : UserData) (name : Option Str) (c : HeadmateData) :
    (((u.headmate_mut name).2).headmateWrite name c).headmate name = some c
    ∧ ((u.headmate_mut name).2).headmate name = some (u.headmate_mut name).1
    ∧ (u.headmate_mut name).1 = (u.headmate name).getD HeadmateData.default := by
  cases name with
  | none =>
    simp [UserData.headmate_mut, UserData.headmateWrite, UserData.headmate]
  | some n =>
    refine ⟨?_, ?_, rfl⟩
    · simp [UserData.headmate_mut, UserData.headmateWrite, UserData.headmate,
        alLookup_alInsert]
    · simp [UserData.headmate_mut, UserData.headmate, alLookup_alInsert]

/-! ## C4: matchup-cache symmetry and memoization -/

theorem Matchup.new_comm (a b : Str) : Matchup.new a b = Matchup.new b a := by
  unfold Matchup.new
  rcases lt_trichotomy a b with h | h | h
  · rw [if_pos h, if_neg (lt_asymm h)]
  · subst h; simp
  · rw [if_neg (lt_asymm h), if_pos h]

theorem cacheFind_get_match (svc : Str → Str → Option Nat) (c : Cache)
    (p q : Str) (k : Str × Str) (s : Nat) (h : cacheFind c k = some s) :
    cacheFind (get_match svc c p q).2.1 k = some s := by
  simp only [get_match]
  cases hfind : cacheFind c (Matchup.new p q) with
  | some s0 => simpa using h
  | none =>
    cases hsvc : svc p q with
    | some s0 =>
      have hne : k ≠ Matchup.new p q := by
        rintro rfl
        rw [h] at hfind
        exact Option.noConfusion hfind
      simp [cacheFind, hne, h]
    | none => simpa using h

theorem cacheFind_runMatches (svc : Str → Str → Option Nat)
    (calls : List (Str × Str)) (c : Cache) (k : Str × Str) (s : Nat)
    (h : cacheFind c k = some s) :
    cacheFind (runMatches svc calls c) k = some s := by
  induction calls generalizing c with
  | nil => exact h
  | cons pq rest ih =>
    rw [runMatches, List.foldl_cons]
    exact ih _ (cacheFind_get_match svc c pq.1 pq.2 k s h)

/-- C4: `Matchup` keys canonicalize the unordered pair (same key for `(A,B)`
and `(B,A)`), and once a `get_match` call for a pair has succeeded with score
`s`, every later call for the same pair — in either argument order and after
any further sequence of calls — returns the same score `s` from the cache,
leaves the cache unchanged, and issues no external scoring-service request. -/
theorem get_match_symm_memo (svc : Str → Str → Option Nat) (cache : Cache)
    (A B : Str) (s : Nat) (cache1 : Cache) (e : Bool)
    (h : get_match svc cache A B = (some s, cache1, e)) :
    Matchup.new A B = Matchup.new B A
    ∧ ∀ calls : List (Str × Str),
        get_match svc (runMatches svc calls cache1) B A
            = (some s, runMatches svc calls cache1, false)
        ∧ get_match svc (runMatches svc calls cache1) A B
            = (some s, runMatches svc calls cache1, false) := by
  have hkey : cacheFind cache1 (Matchup.new A B) = some s := by
    simp only [get_match] at h
    cases hfind : cacheFind cache (Matchup.new A B) with
    | some s0 =>
      simp only [hfind, Prod.mk.injEq, Option.some.injEq] at h
      rw [← h.2.1, ← h.1]
      exact hfind
    | none =>
      simp only [hfind] at h
      cases hsvc : svc A B with
      | some s0 =>
        simp only [hsvc, Prod.mk.injEq, Option.some.injEq] at h
        rw [← h.2.1, ← h.1]
        simp [cacheFind]
      | none =>
        simp only [hsvc, Prod.mk.injEq] at h
        exact absurd h.1 (by simp)
  refine ⟨Matchup.new_comm A B, fun calls => ?_⟩
  have hkey' : cacheFind (runMatches svc calls cache1) (Matchup.new A B) = some s :=
    cacheFind_runMatches svc calls cache1 _ s hkey
  constructor
  · simp [get_match, ← Matchup.new_comm A B, hkey']
  · simp [get_match, hkey']

/-- Witness for C4 at a concrete service, cache and pair. -/
theorem get_match_symm_memo_witness :
    get_match (fun _ _ => some 42) [] (str "a") (str "b")
        = (some 42, [((str "a", str "b"), 42)], true)
    ∧ get_match (fun _ _ => some 42)
          (runMatches (fun _ _ => some 42) [(str "x", str "y")] [((str "a", str "b"), 42)])
          (str "b") (str "a")
        = (some 42,
            runMatches (fun _ _ => some 42) [(str "x", str "y")] [((str "a", str "b"), 42)],
            false) :=
  ⟨by decide,
    ((get_match_symm_memo (fun _ _ => some 42) [] (str "a") (str "b") 42
        [((str "a", str "b"), 42)] true (by decide)).2 [(str "x", str "y")]).1⟩

/-! ## C9 and C10: failing `remove_bdsm_results` -/

/-- C9: when `remove_bdsm_results` is invoked with a headmate name the caller
does not have (or with no name while the primary slot is empty), the command
fails with the corresponding "no entries found" error, `persist` is not
executed, and the on-disk state — in particular the primary store file — is
unchanged. -/
theorem remove_not_found (serialize : GlobalData → Str) (now : Nat) (g : GlobalData)
    (disk : Disk) (guildId authorId : Nat) (headmate : Option Str)
    (h : (personOf g guildId authorId).headmate headmate = none) :
    (remove_bdsm_results serialize now g disk guildId authorId headmate).2.1 = disk
    ∧ (remove_bdsm_results serialize now g disk guildId authorId headmate).2.2.1 = false
    ∧ (remove_bdsm_results serialize now g disk guildId authorId headmate).2.2.2
        = CmdResult.error (removeErrMsg headmate) := by
  cases headmate with
  | some n =>
    rw [UserData.headmate] at h
    rw [remove_bdsm_results]
    rw [personOf] at h
    simp only [h]
    exact ⟨trivial, trivial, trivial⟩
  | none =>
    rw [UserData.headmate] at h
    rw [remove_bdsm_results]
    rw [personOf] at h
    simp only [h]
    exact ⟨trivial, trivial, trivial⟩

/-- Witness for C9: removing headmate "Alex" for a caller with no data at all. -/
theorem remove_not_found_witness :
    (remove_bdsm_results (fun _ => str "S") 0 ⟨[]⟩ ⟨some (str "D"), [], [], [], []⟩
        7 5 (some (str "Alex"))).2.1 = ⟨some (str "D"), [], [], [], []⟩
    ∧ (remove_bdsm_results (fun _ => str "S") 0 ⟨[]⟩ ⟨some (str "D"), [], [], [], []⟩
        7 5 (some (str "Alex"))).2.2.1 = false
    ∧ (remove_bdsm_results (fun _ => str "S") 0 ⟨[]⟩ ⟨some (str "D"), [], [], [], []⟩
        7 5 (some (str "Alex"))).2.2.2
        = CmdResult.error (removeErrMsg (some (str "Alex"))) :=
  remove_not_found (fun _ => str "S") 0 ⟨[]⟩ ⟨some (str "D"), [], [], [], []⟩
    7 5 (some (str "Alex")) (by decide)

/-- C10: a `remove_bdsm_results` call on a guild with no registry entry fails
with the not-found error and persists nothing, yet — because the handler does
get-or-insert on the guild and on the caller's `UserData` before checking the
headmate or primary slot — it leaves behind a `GuildData` entry for the guild
holding exactly an empty `UserData` for the caller. -/
theorem remove_creates_containers (serialize : GlobalData → Str) (now : Nat)
    (g : GlobalData) (disk : Disk) (guildId authorId : Nat) (headmate : Option Str)
    (h : alLookup g.guilds guildId = none) :
    (remove_bdsm_results serialize now g disk guildId authorId headmate).2.2.2
        = CmdResult.error (removeErrMsg headmate)
    ∧ (remove_bdsm_results serialize now g disk guildId authorId headmate).2.2.1 = false
    ∧ alLookup (remove_bdsm_results serialize now g disk guildId authorId headmate).1.guilds
          guildId
        = some ⟨[(authorId, UserData.default)]⟩ := by
  cases headmate with
  | some n =>
    rw [remove_bdsm_results]
    simp only [h, Option.getD_none]
    have h2 : alLookup (GuildData.default.users) authorId = none := rfl
    simp only [h2, Option.getD_none]
    have h3 : alLookup (UserData.default.headmates) n = none := rfl
    simp only [h3]
    refine ⟨trivial, trivial, ?_⟩
    have : alInsert GuildData.default.users authorId UserData.default
        = [(authorId, UserData.default)] := rfl
    rw [this]
    exact alLookup_alInsert g.guilds guildId _
  | none =>
    rw [remove_bdsm_results]
    simp only [h, Option.getD_none]
    have h2 : alLookup (GuildData.default.users) authorId = none := rfl
    simp only [h2, Option.getD_none]
    have h3 : UserData.default.primary = none := rfl
    simp only [h3]
    refine ⟨trivial, trivial, ?_⟩
    have : alInsert GuildData.default.users authorId UserData.default
        = [(authorId, UserData.default)] := rfl
    rw [this]
    exact alLookup_alInsert g.guilds guildId _

/-- Witness for C10 at a concrete empty registry. -/
theorem remove_creates_containers_witness :
    (remove_bdsm_results (fun _ => str "S") 3 ⟨[(9, GuildData.default)]⟩
        ⟨none, [], [], [], []⟩ 7 5 none).2.2.2 = CmdResult.error (removeErrMsg none)
    ∧ (remove_bdsm_results (fun _ => str "S") 3 ⟨[(9, GuildData.default)]⟩
        ⟨none, [], [], [], []⟩ 7 5 none).2.2.1 = false
    ∧ alLookup (remove_bdsm_results (fun _ => str "S") 3 ⟨[(9, GuildData.default)]⟩
          ⟨none, [], [], [], []⟩ 7 5 none).1.guilds 7
        = some ⟨[(5, UserData.default)]⟩ :=
  remove_creates_containers (fun _ => str "S") 3 ⟨[(9, GuildData.default)]⟩
    ⟨none, [], [], [], []⟩ 7 5 none (by decide)

/-! ## C2 and C3: the listing loop, empty histories, and the subject -/

theorem entityRow_eq_none_iff (svc : Str → Str → Option Nat) (cache : Cache)
    (mostRecent label : Str) (h : HeadmateData) :
    entityRow svc cache mostRecent label h = none ↔ h.results = [] := by
  cases hr : h.results with
  | nil => simp [entityRow, maxByKey, hr]
  | cons x rest => simp [entityRow, maxByKey, hr]

theorem headmateRows_total (svc : Str → Str → Option Nat) (mostRecent memberName : Str) :
    ∀ (hms : List (Str × HeadmateData)) (cache : Cache),
      (∀ q ∈ hms, q.2.results ≠ []) →
      ∃ rows cache1, headmateRows svc mostRecent memberName hms cache = some (rows, cache1)
        ∧ rows.length = hms.length := by
  intro hms
  induction hms with
  | nil => exact fun cache _ => ⟨[], cache, rfl, rfl⟩
  | cons q rest ih =>
    intro cache hne
    obtain ⟨hname, h⟩ := q
    have h1 : h.results ≠ [] := hne (hname, h) (List.mem_cons_self _ _)
    have h2 : entityRow svc cache mostRecent (headmateLabel memberName hname) h ≠ none := by
      rw [Ne, entityRow_eq_none_iff]
      exact h1
    obtain ⟨⟨row, cache1⟩, hrc⟩ := Option.ne_none_iff_exists'.mp h2
    obtain ⟨rows, cache2, hrec, hlen⟩ :=
      ih cache1 fun q hq => hne q (List.mem_cons_of_mem _ hq)
    refine ⟨row :: rows, cache2, ?_, by simp [hlen]⟩
    simp only [headmateRows, hrc, hrec]

theorem userRows_total (svc : Str → Str → Option Nat) (mostRecent memberName : Str)
    (person : UserData) (cache : Cache) (hgood : person.allNonempty = true) :
    ∃ rows cache1, userRows svc mostRecent memberName person cache = some (rows, cache1)
      ∧ rows.length = person.entityCount := by
  rw [UserData.allNonempty, Bool.and_eq_true, List.all_eq_true] at hgood
  have hhm : ∀ q ∈ person.headmates, q.2.results ≠ [] := by
    intro q hq
    have := hgood.2 q hq
    simpa using this
  cases hp : person.primary with
  | none =>
    obtain ⟨rows, c1, heq, hlen⟩ :=
      headmateRows_total svc mostRecent memberName person.headmates cache hhm
    refine ⟨rows, c1, ?_, ?_⟩
    · simp only [userRows, hp]
      exact heq
    · simp [UserData.entityCount, hp, hlen]
  | some p =>
    have hpne : p.results ≠ [] := by
      have := hgood.1
      rw [hp] at this
      simpa using this
    have h2 : entityRow svc cache mostRecent memberName p ≠ none := by
      rw [Ne, entityRow_eq_none_iff]
      exact hpne
    obtain ⟨⟨row, cache1⟩, hrc⟩ := Option.ne_none_iff_exists'.mp h2
    obtain ⟨rows, cache2, hrec, hlen⟩ :=
      headmateRows_total svc mostRecent memberName person.headmates cache1 hhm
    refine ⟨row :: rows, cache2, ?_, ?_⟩
    · simp only [userRows, hp, hrc, hrec]
    · simp only [UserData.entityCount, hp, List.length_cons, hlen]
      omega

theorem collectRows_total (svc : Str → Str → Option Nat) (directory : Nat → Option Str)
    (mostRecent : Str) :
    ∀ (users : List (Nat × UserData)) (cache : Cache),
      (∀ p ∈ users, p.2.allNonempty = true) →
      ∃ rows cache1, collectRows svc directory mostRecent users cache = some (rows, cache1)
        ∧ rows.length = (users.map fun p => p.2.entityCount).sum := by
  intro users
  induction users with
  | nil => exact fun cache _ => ⟨[], cache, rfl, rfl⟩
  | cons p rest ih =>
    intro cache hgood
    obtain ⟨uid, person⟩ := p
    obtain ⟨rows, cache1, heq, hlen⟩ :=
      userRows_total svc mostRecent (memberLabel directory uid) person cache
        (hgood _ (List.mem_cons_self _ _))
    obtain ⟨rows1, cache2, heq1, hlen1⟩ :=
      ih cache1 fun q hq => hgood q (List.mem_cons_of_mem _ hq)
    refine ⟨rows ++ rows1, cache2, ?_, ?_⟩
    · simp only [collectRows, heq, heq1]
    · simp [hlen, hlen1]

theorem headmateRows_panic (svc : Str → Str → Option Nat) (mostRecent memberName : Str) :
    ∀ (hms : List (Str × HeadmateData)) (cache : Cache),
      (∃ q ∈ hms, q.2.results = []) →
      headmateRows svc mostRecent memberName hms cache = none := by
  intro hms
  induction hms with
  | nil =>
    intro cache h
    obtain ⟨q, hq, _⟩ := h
    exact absurd hq (List.not_mem_nil q)
  | cons q rest ih =>
    intro cache hbad
    obtain ⟨hname, h⟩ := q
    by_cases h1 : h.results = []
    · have he : entityRow svc cache mostRecent (headmateLabel memberName hname) h = none :=
        (entityRow_eq_none_iff svc cache mostRecent (headmateLabel memberName hname) h).mpr h1
      simp only [headmateRows, he]
    · have hbad' : ∃ q ∈ rest, q.2.results = [] := by
        obtain ⟨q', hq', hq2⟩ := hbad
        rcases List.mem_cons.mp hq' with rfl | hmem
        · exact absurd hq2 h1
        · exact ⟨q', hmem, hq2⟩
      cases hrc : entityRow svc cache mostRecent (headmateLabel memberName hname) h with
      | none => simp only [headmateRows, hrc]
      | some rc =>
        obtain ⟨row, cache1⟩ := rc
        simp only [headmateRows, hrc, ih cache1 hbad']

theorem userRows_panic (svc : Str → Str → Option Nat) (mostRecent memberName : Str)
    (person : UserData) (cache : Cache)
    (hbad : (∃ h, person.primary = some h ∧ h.results = [])
        ∨ ∃ q ∈ person.headmates, q.2.results = []) :
    userRows svc mostRecent memberName person cache = none := by
  rcases hbad with ⟨h, hp, hr⟩ | hbad
  · have he : entityRow svc cache mostRecent memberName h = none :=
      (entityRow_eq_none_iff svc cache mostRecent memberName h).mpr hr
    simp only [userRows, hp, he]
  · cases hp : person.primary with
    | none =>
      simp only [userRows, hp]
      exact headmateRows_panic svc mostRecent memberName person.headmates cache hbad
    | some p =>
      cases hrc : entityRow svc cache mostRecent memberName p with
      | none => simp only [userRows, hp, hrc]
      | some rc =>
        obtain ⟨row, cache1⟩ := rc
        simp only [userRows, hp, hrc,
          headmateRows_panic svc mostRecent memberName person.headmates cache1 hbad]

theorem collectRows_panic (svc : Str → Str → Option Nat) (directory : Nat → Option Str)
    (mostRecent : Str) :
    ∀ (users : List (Nat × UserData)) (cache : Cache) (p : Nat × UserData), p ∈ users →
      ((∃ h, p.2.primary = some h ∧ h.results = [])
        ∨ ∃ q ∈ p.2.headmates, q.2.results = []) →
      collectRows svc directory mostRecent users cache = none := by
  intro users
  induction users with
  | nil =>
    intro cache p hp _
    exact absurd hp (List.not_mem_nil p)
  | cons q rest ih =>
    intro cache p hp hbad
    obtain ⟨uid, person⟩ := q
    rcases List.mem_cons.mp hp with rfl | hmem
    · have hu : userRows svc mostRecent (memberLabel directory uid) person cache = none :=
        userRows_panic svc mostRecent (memberLabel directory uid) person cache hbad
      simp only [collectRows, hu]
    · cases hur : userRows svc mostRecent (memberLabel directory uid) person cache with
      | none => simp only [collectRows, hur]
      | some rc =>
        obtain ⟨rows, cache1⟩ := rc
        simp only [collectRows, hur, ih cache1 p hmem hbad]

/-- C2 (amended): entities whose record is absent contribute no rows, but a
present record with an empty result history is not skipped — reaching it makes
the listing panic (`expect("no partner result")`, modelled as `none`) — while
a listing in which every present record has at least one result succeeds and
produces exactly one row per present entity. -/
theorem listing_empty_history (svc : Str → Str → Option Nat) (directory : Nat → Option Str)
    (mostRecent : Str) (users : List (Nat × UserData)) (cache : Cache) :
    ((∀ p ∈ users, p.2.allNonempty = true) →
      ∃ rows cache1, collectRows svc directory mostRecent users cache = some (rows, cache1)
        ∧ rows.length = (users.map fun p => p.2.entityCount).sum)
    ∧ ∀ p ∈ users,
        ((∃ h, p.2.primary = some h ∧ h.results = [])
          ∨ ∃ q ∈ p.2.headmates, q.2.results = []) →
        collectRows svc directory mostRecent users cache = none := by
  constructor
  · exact collectRows_total svc directory mostRecent users cache
  · exact fun p hp hbad => collectRows_panic svc directory mostRecent users cache p hp hbad

/-- C2 counterexample: a candidate entity (user 5's primary slot) with an
empty result history makes the listing panic (modelled as `none`) — it is not
skipped and the listing does not succeed. -/
theorem listing_empty_history_cex :
    collectRows (fun _ _ => some 50) (fun _ => some (str "alice")) (str "r")
      [(5, ⟨some ⟨[]⟩, []⟩)] [] = none := by
  rfl

/-- Witness for C2: a fully healthy guild succeeds with one row per entity,
and a guild with an empty-history record panics. -/
theorem listing_empty_history_witness :
    (∃ rows cache1,
      collectRows (fun _ _ => some 50) (fun _ => some (str "alice")) (str "r")
          [(5, ⟨some ⟨[(3, str "r2")]⟩, []⟩)] [] = some (rows, cache1)
        ∧ rows.length
            = ([(5, (⟨some ⟨[(3, str "r2")]⟩, []⟩ : UserData))].map
                fun p => p.2.entityCount).sum)
    ∧ collectRows (fun _ _ => some 50) (fun _ => some (str "alice")) (str "r")
        [(6, ⟨some ⟨[]⟩, [(str "Bea", ⟨[(1, str "x")]⟩)]⟩)] [] = none :=
  ⟨(listing_empty_history (fun _ _ => some 50) (fun _ => some (str "alice")) (str "r")
      [(5, ⟨some ⟨[(3, str "r2")]⟩, []⟩)] []).1 (by decide),
    (listing_empty_history (fun _ _ => some 50) (fun _ => some (str "alice")) (str "r")
      [(6, ⟨some ⟨[]⟩, [(str "Bea", ⟨[(1, str "x")]⟩)]⟩)] []).2
      (6, ⟨some ⟨[]⟩, [(str "Bea", ⟨[(1, str "x")]⟩)]⟩)
      (by decide) (Or.inl ⟨⟨[]⟩, rfl, rfl⟩)⟩

/-- C3 (amended): the fan-out loop iterates over every `UserData` in the
guild, the subject's own included (the self-skip is commented out): when the
subject is the only user and their records are nonempty, the listing contains
exactly the subject's own entity rows — self-comparisons — rather than none. -/
theorem listing_includes_subject (svc : Str → Str → Option Nat)
    (directory : Nat → Option Str) (mostRecent : Str) (authorId : Nat)
    (u : UserData) (cache : Cache) (hgood : u.allNonempty = true) :
    ∃ rows cache1,
      collectRows svc directory mostRecent [(authorId, u)] cache = some (rows, cache1)
        ∧ rows.length = u.entityCount := by
  obtain ⟨rows, cache1, heq, hlen⟩ :=
    userRows_total svc mostRecent (memberLabel directory authorId) u cache hgood
  refine ⟨rows, cache1, ?_, hlen⟩
  simp only [collectRows, heq]
  simp

/-- C3 counterexample: with the subject (user 5) the only user in the guild,
the loop still visits the subject and emits a self-comparison row, instead of
the zero comparison rows the claim requires. -/
theorem listing_includes_subject_cex :
    collectRows (fun _ _ => some 42) (fun _ => some (str "alice")) (str "r")
      [(5, ⟨some ⟨[(10, str "r")]⟩, []⟩)] []
      = some ([(42, str "**alice**")], [((str "r", str "r"), 42)]) := by
  rfl

/-- Witness for C3 at a subject with a primary and one headmate. -/
theorem listing_includes_subject_witness :
    ∃ rows cache1,
      collectRows (fun _ _ => some 7) (fun _ => some (str "bob")) (str "q")
          [(3, ⟨some ⟨[(2, str "q2")]⟩, [(str "Cee", ⟨[(4, str "q3")]⟩)]⟩)] []
        = some (rows, cache1)
      ∧ rows.length
          = (⟨some ⟨[(2, str "q2")]⟩, [(str "Cee", ⟨[(4, str "q3")]⟩)]⟩ : UserData).entityCount :=
  listing_includes_subject (fun _ _ => some 7) (fun _ => some (str "bob")) (str "q") 3
    ⟨some ⟨[(2, str "q2")]⟩, [(str "Cee", ⟨[(4, str "q3")]⟩)]⟩ [] (by decide)

/-! ## C6: sorting and rendering of the listing -/

theorem sortRows_perm (rows : List (Int × Str)) : (sortRows rows).Perm rows :=
  List.perm_insertionSort _ rows

theorem sortRows_sorted (rows : List (Int × Str)) :
    (sortRows rows).Sorted fun a b => sortKey a ≤ sortKey b := by
  haveI h1 : IsTotal (Int × Str) fun a b => sortKey a ≤ sortKey b :=
    ⟨fun a b => le_total (sortKey a) (sortKey b)⟩
  haveI h2 : IsTrans (Int × Str) fun a b => sortKey a ≤ sortKey b :=
    ⟨fun _ _ _ hab hbc => le_trans hab hbc⟩
  exact List.sorted_insertionSort _ rows

/-- C6: with every collected score either the `-1` failure sentinel or a
non-negative value (as the 0..=100 scoring-service contract guarantees), the
rendered listing is the collected rows sorted descending by score, every
failed-lookup entry sorts after every entry with a valid score, and failed
entries render as an Invalid Result marker while valid ones render as a
zero-padded percentage. -/
theorem listing_render_sorted (rows : List (Int × Str))
    (hv : ∀ r ∈ rows, r.1 = -1 ∨ 0 ≤ r.1) :
    (sortRows rows).Perm rows
    ∧ (sortRows rows).Pairwise (fun a b => b.1 ≤ a.1)
    ∧ (sortRows rows).Pairwise (fun a b => a.1 = -1 → b.1 = -1)
    ∧ renderRows rows = (sortRows rows).map renderRow
    ∧ ∀ r ∈ sortRows rows,
        (r.1 = -1 →
          renderRow r = str "- " ++ r.2 ++ str ": " ++ str "Invalid Result" ++ str "\n")
        ∧ (0 ≤ r.1 →
          renderRow r = str "- " ++ r.2 ++ str ": " ++ fmtScore r.1 ++ str "%" ++ str "\n") := by
  have hperm := sortRows_perm rows
  have hdesc : (sortRows rows).Pairwise fun a b => b.1 ≤ a.1 := by
    refine (sortRows_sorted rows).imp ?_
    intro a b hab
    simp only [sortKey] at hab
    omega
  have hmem : ∀ r ∈ sortRows rows, r.1 = -1 ∨ 0 ≤ r.1 := fun r hr => hv r (hperm.subset hr)
  have hinv : (sortRows rows).Pairwise fun a b => a.1 = -1 → b.1 = -1 := by
    refine List.Pairwise.imp_of_mem ?_ hdesc
    intro a b ha hb hle hia
    rcases hmem b hb with hb1 | hb2
    · exact hb1
    · rw [hia] at hle
      omega
  refine ⟨hperm, hdesc, hinv, rfl, ?_⟩
  intro r hr
  constructor
  · intro h1
    rw [renderRow, if_neg (by omega)]
  · intro h2
    rw [renderRow, if_pos h2]
    simp [List.append_assoc]

/-- Witness for C6 at a concrete row list with a failed entry. -/
theorem listing_render_sorted_witness :
    (sortRows [((-1 : Int), str "x"), (50, str "y"), (7, str "z")]).Perm
        [((-1 : Int), str "x"), (50, str "y"), (7, str "z")]
    ∧ (sortRows [((-1 : Int), str "x"), (50, str "y"), (7, str "z")]).Pairwise
        (fun a b => b.1 ≤ a.1)
    ∧ (sortRows [((-1 : Int), str "x"), (50, str "y"), (7, str "z")]).Pairwise
        (fun a b => a.1 = -1 → b.1 = -1)
    ∧ renderRows [((-1 : Int), str "x"), (50, str "y"), (7, str "z")]
        = (sortRows [((-1 : Int), str "x"), (50, str "y"), (7, str "z")]).map renderRow
    ∧ ∀ r ∈ sortRows [((-1 : Int), str "x"), (50, str "y"), (7, str "z")],
        (r.1 = -1 →
          renderRow r = str "- " ++ r.2 ++ str ": " ++ str "Invalid Result" ++ str "\n")
        ∧ (0 ≤ r.1 →
          renderRow r = str "- " ++ r.2 ++ str ": " ++ fmtScore r.1 ++ str "%" ++ str "\n") :=
  listing_render_sorted [((-1 : Int), str "x"), (50, str "y"), (7, str "z")] (by decide)

/-! ## C8: most-recent result selection -/

theorem buildResults_ne_nil (inserts : List (Nat × Str)) (hne : inserts ≠ []) :
    buildResults inserts ≠ [] := by
  have key : ∀ (rest : List (Nat × Str)) (m : List (Nat × Str)), m ≠ [] →
      rest.foldl (fun m i => alInsert m i.1 i.2) m ≠ [] := by
    intro rest
    induction rest with
    | nil => exact fun m hm => hm
    | cons i rest ih =>
      intro m hm
      rw [List.foldl_cons]
      exact ih _ (alInsert_ne_nil m i.1 i.2)
  match inserts with
  | [] => exact absurd rfl hne
  | i :: rest =>
    rw [buildResults, List.foldl_cons]
    exact key rest _ (alInsert_ne_nil [] i.1 i.2)

theorem buildResults_keys_pairwise (inserts : List (Nat × Str)) :
    (buildResults inserts).Pairwise fun p q => p.1 < q.1 := by
  have key : ∀ (rest : List (Nat × Str)) (m : List (Nat × Str)),
      m.Pairwise (fun p q => p.1 < q.1) →
      (rest.foldl (fun m i => alInsert m i.1 i.2) m).Pairwise fun p q => p.1 < q.1 := by
    intro rest
    induction rest with
    | nil => exact fun m hm => hm
    | cons i rest ih =>
      intro m hm
      rw [List.foldl_cons]
      exact ih _ (alInsert_keys_pairwise m i.1 i.2 hm)
  exact key inserts [] List.Pairwise.nil

/-- C8: for every results history built by a non-empty sequence of inserts —
in any insertion order — the representative entry the resolver picks via
`max_by_key` is exactly the entry stored under the maximum timestamp key of
the resulting map. -/
theorem most_recent_is_max (inserts : List (Nat × Str)) (hne : inserts ≠ []) :
    ∃ t v, maxByKey (buildResults inserts) = some (t, v)
      ∧ (∀ p ∈ buildResults inserts, p.1 ≤ t)
      ∧ alLookup (buildResults inserts) t = some v := by
  obtain ⟨m, hmax, hmem, hall⟩ :=
    maxByKey_spec (buildResults inserts) (buildResults_ne_nil inserts hne)
  obtain ⟨t, v⟩ := m
  have hnd : ((buildResults inserts).map Prod.fst).Nodup := by
    have hpw : ((buildResults inserts).map Prod.fst).Pairwise (· < ·) :=
      List.pairwise_map.mpr (buildResults_keys_pairwise inserts)
    exact hpw.imp fun h => Nat.ne_of_lt h
  exact ⟨t, v, hmax, hall, alLookup_of_mem_of_nodup _ t v hmem hnd⟩

/-- Witness for C8 at an out-of-order insertion sequence. -/
theorem most_recent_is_max_witness :
    ∃ t v, maxByKey (buildResults [(3, str "b"), (1, str "a"), (2, str "c")]) = some (t, v)
      ∧ (∀ p ∈ buildResults [(3, str "b"), (1, str "a"), (2, str "c")], p.1 ≤ t)
      ∧ alLookup (buildResults [(3, str "b"), (1, str "a"), (2, str "c")]) t = some v :=
  most_recent_is_max [(3, str "b"), (1, str "a"), (2, str "c")] (by decide)

/-! ## C1: which snapshot each backup tier copies -/

theorem folderPrune_eq_self (l : List (Str × Str)) (keep : Nat) (h : l.length ≤ keep) :
    folderPrune l keep = l := by
  rw [folderPrune, if_neg (by omega)]

/-- C1 counterexample: one persist over a disk whose registry file holds the
previous snapshot "old".  The hourly, daily and monthly tiers end up holding
the freshly written snapshot "new", not the pre-write snapshot — those three
copies run after the primary-file overwrite. -/
theorem persist_backup_order_cex :
    (persist (str "new") 3600 ⟨some (str "old"), [], [], [], []⟩).hourly
        = [(bucketName 1, str "new")]
    ∧ (persist (str "new") 3600 ⟨some (str "old"), [], [], [], []⟩).daily
        = [(bucketName 0, str "new")]
    ∧ (persist (str "new") 3600 ⟨some (str "old"), [], [], [], []⟩).monthly
        = [(bucketName 0, str "new")]
    ∧ (persist (str "new") 3600 ⟨some (str "old"), [], [], [], []⟩).history
        = [(bucketName 3600, str "old")]
    ∧ str "new" ≠ str "old" := by
  refine ⟨rfl, rfl, rfl, rfl, ?_⟩
  decide

/-- C1 (amended): when the primary registry file exists, a persist operation
copies the previous on-disk snapshot into the history tier before overwriting
the primary file, but the hourly, daily and monthly copies run after the
overwrite and therefore hold the freshly serialized snapshot.  (The length
bounds keep the just-written file from being pruned straight away.) -/
theorem persist_backup_order (d : Disk) (c prev : Str) (now : Nat)
    (hreg : d.registry = some prev)
    (hh : d.history.length < 20) (hu : d.hourly.length < 24)
    (hd : d.daily.length < 30) (hm : d.monthly.length < usizeMAX) :
    alLookup (persist c now d).history (bucketName now) = some prev
    ∧ alLookup (persist c now d).hourly (bucketName (now / 60 / 60)) = some c
    ∧ alLookup (persist c now d).daily (bucketName (now / 60 / 60 / 24)) = some c
    ∧ alLookup (persist c now d).monthly (bucketName (now / 60 / 60 / 24 / 28)) = some c
    ∧ (persist c now d).registry = some c := by
  have key : ∀ (f : List (Str × Str)) (x : Str) (n : Str) (keep : Nat), f.length < keep →
      alLookup (persist_folder (some x) f n keep) n = some x := by
    intro f x n keep hlen
    rw [persist_folder, folderPrune_eq_self _ _
      (le_trans (alInsert_length_le f n x) (by omega))]
    exact alLookup_alInsert f n x
  refine ⟨?_, ?_, ?_, ?_, rfl⟩
  · show alLookup (persist_folder d.registry d.history (bucketName now) 20) _ = _
    rw [hreg]
    exact key d.history prev (bucketName now) 20 hh
  · exact key d.hourly c _ 24 hu
  · exact key d.daily c _ 30 hd
  · exact key d.monthly c _ usizeMAX hm

/-- Witness for C1 at a concrete disk and write. -/
theorem persist_backup_order_witness :
    alLookup (persist (str "B") 7200 ⟨some (str "A"), [], [], [], []⟩).history
        (bucketName 7200) = some (str "A")
    ∧ alLookup (persist (str "B") 7200 ⟨some (str "A"), [], [], [], []⟩).hourly
        (bucketName 2) = some (str "B")
    ∧ alLookup (persist (str "B") 7200 ⟨some (str "A"), [], [], [], []⟩).daily
        (bucketName 0) = some (str "B")
    ∧ alLookup (persist (str "B") 7200 ⟨some (str "A"), [], [], [], []⟩).monthly
        (bucketName 0) = some (str "B")
    ∧ (persist (str "B") 7200 ⟨some (str "A"), [], [], [], []⟩).registry = some (str "B") :=
  persist_backup_order ⟨some (str "A"), [], [], [], []⟩ (str "B") (str "A") 7200 rfl
    (by decide) (by decide) (by decide) (by decide)

/-! ## C5: backup retention across a run of persist operations -/

/-- The last `keep` elements of a list (what pruning oldest-first leaves). -/
def lastKeep {α : Type} (keep : Nat) (l : List α) : List α := l.drop (l.length - keep)

/-- One `persist_folder` step with the registry file present: copy in, prune. -/
def folderStep (keep : Nat) (f : List (Str × Str)) (p : Str × Str) : List (Str × Str) :=
  folderPrune (alInsert f p.1 p.2) keep

theorem folderPrune_eq_lastKeep (l : List (Str × Str)) (keep : Nat) :
    folderPrune l keep = lastKeep keep l := by
  rw [folderPrune, lastKeep]
  split
  · rfl
  · have h0 : l.length - keep = 0 := by omega
    rw [h0, List.drop_zero]

theorem lastKeep_cons {α : Type} (keep : Nat) (x : α) (s : List α) (h : keep ≤ s.length) :
    lastKeep keep (x :: s) = lastKeep keep s := by
  rw [lastKeep, lastKeep, List.length_cons]
  have h1 : s.length + 1 - keep = (s.length - keep) + 1 := by omega
  rw [h1, List.drop_succ_cons]

theorem lastKeep_append_left {α : Type} (keep : Nat) (p s : List α) (h : keep ≤ s.length) :
    lastKeep keep (p ++ s) = lastKeep keep s := by
  induction p with
  | nil => rfl
  | cons x p ih =>
    rw [List.cons_append, lastKeep_cons keep x (p ++ s) (by rw [List.length_append]; omega), ih]

theorem lastKeep_absorb {α : Type} (keep : Nat) (l r : List α) :
    lastKeep keep (lastKeep keep l ++ r) = lastKeep keep (l ++ r) := by
  by_cases h : l.length ≤ keep
  · have h0 : lastKeep keep l = l := by
      rw [lastKeep, Nat.sub_eq_zero_of_le h, List.drop_zero]
    rw [h0]
  · have hL : lastKeep keep (lastKeep keep l ++ r)
        = lastKeep keep (l.drop (l.length - keep) ++ r) := rfl
    rw [hL]
    calc lastKeep keep (l.drop (l.length - keep) ++ r)
        = lastKeep keep (l.take (l.length - keep) ++ (l.drop (l.length - keep) ++ r)) :=
          (lastKeep_append_left keep _ _
            (by rw [List.length_append, List.length_drop]; omega)).symm
      _ = lastKeep keep (l ++ r) := by rw [← List.append_assoc, List.take_append_drop]

theorem folderStep_length_le (keep : Nat) (f : List (Str × Str)) (p : Str × Str)
    (h : f.length ≤ keep) : (folderStep keep f p).length ≤ keep := by
  rw [folderStep, folderPrune]
  split
  · rw [List.length_drop]
    omega
  · omega

theorem foldFolder_length_le (keep : Nat) (ps : List (Str × Str)) :
    ∀ f : List (Str × Str), f.length ≤ keep →
      (ps.foldl (folderStep keep) f).length ≤ keep := by
  induction ps with
  | nil => exact fun f h => h
  | cons p ps ih =>
    intro f h
    rw [List.foldl_cons]
    exact ih _ (folderStep_length_le keep f p h)

theorem folderStep_keys_pairwise (keep : Nat) (f : List (Str × Str)) (p : Str × Str)
    (h : f.Pairwise fun a b => a.1 < b.1) :
    (folderStep keep f p).Pairwise fun a b => a.1 < b.1 := by
  rw [folderStep, folderPrune]
  have hi := alInsert_keys_pairwise f p.1 p.2 h
  split
  · exact hi.sublist (List.drop_sublist _ _)
  · exact hi

theorem foldFolder_keys_pairwise (keep : Nat) (ps : List (Str × Str)) :
    ∀ f : List (Str × Str), f.Pairwise (fun a b => a.1 < b.1) →
      (ps.foldl (folderStep keep) f).Pairwise fun a b => a.1 < b.1 := by
  induction ps with
  | nil => exact fun f h => h
  | cons p ps ih =>
    intro f h
    rw [List.foldl_cons]
    exact ih _ (folderStep_keys_pairwise keep f p h)

theorem folderStep_noPrune (keep : Nat) (f : List (Str × Str)) (p : Str × Str)
    (h : f.length < keep) : folderStep keep f p = alInsert f p.1 p.2 := by
  rw [folderStep, folderPrune_eq_self]
  exact le_trans (alInsert_length_le f p.1 p.2) (by omega)

theorem foldFolder_noPrune (keep : Nat) (ps : List (Str × Str)) :
    ∀ f : List (Str × Str), f.length + ps.length ≤ keep →
      ps.foldl (folderStep keep) f = ps.foldl (fun f p => alInsert f p.1 p.2) f := by
  induction ps with
  | nil => exact fun f _ => rfl
  | cons p ps ih =>
    intro f h
    rw [List.length_cons] at h
    rw [List.foldl_cons, List.foldl_cons, folderStep_noPrune keep f p (by omega)]
    refine ih _ ?_
    have := alInsert_length_le f p.1 p.2
    omega

theorem foldInsert_keys_mem (ps : List (Str × Str)) :
    ∀ (f : List (Str × Str)) (k : Str),
      k ∈ (ps.foldl (fun f p => alInsert f p.1 p.2) f).map Prod.fst
        ↔ k ∈ f.map Prod.fst ∨ k ∈ ps.map Prod.fst := by
  induction ps with
  | nil => simp
  | cons p ps ih =>
    intro f k
    rw [List.foldl_cons, ih (alInsert f p.1 p.2) k, alInsert_mem_keys, List.map_cons,
      List.mem_cons]
    tauto

theorem foldFolder_eq_lastKeep (keep : Nat) (ps : List (Str × Str)) :
    ∀ f : List (Str × Str), f.length ≤ keep →
      ((f ++ ps).map Prod.fst).Pairwise (· < ·) →
      ps.foldl (folderStep keep) f = lastKeep keep (f ++ ps) := by
  induction ps with
  | nil =>
    intro f hlen _
    rw [List.append_nil, lastKeep, Nat.sub_eq_zero_of_le hlen, List.drop_zero]
    rfl
  | cons p ps ih =>
    intro f hlen hpw
    have hlt : ∀ q ∈ f, q.1 < p.1 := by
      intro q hq
      rw [List.map_append, List.map_cons] at hpw
      obtain ⟨-, -, hcross⟩ := List.pairwise_append.mp hpw
      exact hcross q.1 (List.mem_map.mpr ⟨q, hq, rfl⟩) p.1 (List.mem_cons_self _ _)
    have hstep : folderStep keep f p = lastKeep keep (f ++ [p]) := by
      rw [folderStep, alInsert_append_of_forall_lt f p.1 p.2 hlt, folderPrune_eq_lastKeep]
    rw [List.foldl_cons, hstep]
    have hlen1 : (lastKeep keep (f ++ [p])).length ≤ keep := by
      rw [lastKeep, List.length_drop]
      omega
    have hpw1 : ((lastKeep keep (f ++ [p]) ++ ps).map Prod.fst).Pairwise (· < ·) := by
      have hsub : (lastKeep keep (f ++ [p]) ++ ps).Sublist ((f ++ [p]) ++ ps) :=
        (List.drop_sublist _ _).append_right ps
      have hpw2 : (((f ++ [p]) ++ ps).map Prod.fst).Pairwise (· < ·) := by
        rw [List.append_assoc, List.singleton_append]
        exact hpw
      exact hpw2.sublist (hsub.map Prod.fst)
    rw [ih _ hlen1 hpw1, lastKeep_absorb, List.append_assoc, List.singleton_append]

/-- The (filename, copied content) pairs the history tier receives across a
run: the file for write `i` holds the snapshot that preceded write `i`. -/
def histPairs (prev : Str) : List (Str × Nat) → List (Str × Str)
  | [] => []
  | (c, t) :: rest => (bucketName t, prev) :: histPairs c rest

theorem histPairs_map_fst (prev : Str) (ws : List (Str × Nat)) :
    (histPairs prev ws).map Prod.fst = ws.map fun w => bucketName w.2 := by
  induction ws generalizing prev with
  | nil => rfl
  | cons w rest ih =>
    obtain ⟨c, t⟩ := w
    rw [histPairs, List.map_cons, List.map_cons, ih c]

theorem histPairs_length (prev : Str) (ws : List (Str × Nat)) :
    (histPairs prev ws).length = ws.length := by
  induction ws generalizing prev with
  | nil => rfl
  | cons w rest ih =>
    obtain ⟨c, t⟩ := w
    rw [histPairs, List.length_cons, List.length_cons, ih c]

theorem persistRun_tiers (writes : List (Str × Nat)) :
    ∀ (d : Disk) (prev : Str), d.registry = some prev →
      ((persistRun writes d).history
          = (histPairs prev writes).foldl (folderStep 20) d.history)
      ∧ ((persistRun writes d).hourly
          = (writes.map fun w => (bucketName (w.2 / 60 / 60), w.1)).foldl
              (folderStep 24) d.hourly)
      ∧ ((persistRun writes d).daily
          = (writes.map fun w => (bucketName (w.2 / 60 / 60 / 24), w.1)).foldl
              (folderStep 30) d.daily)
      ∧ ((persistRun writes d).monthly
          = (writes.map fun w => (bucketName (w.2 / 60 / 60 / 24 / 28), w.1)).foldl
              (folderStep usizeMAX) d.monthly)
      ∧ ∃ c, (persistRun writes d).registry = some c := by
  induction writes with
  | nil => exact fun d prev hreg => ⟨rfl, rfl, rfl, rfl, prev, hreg⟩
  | cons w rest ih =>
    intro d prev hreg
    obtain ⟨c, t⟩ := w
    have hstep : persist c t d = ⟨some c,
        folderStep 20 d.history (bucketName t, prev),
        folderStep 24 d.hourly (bucketName (t / 60 / 60), c),
        folderStep 30 d.daily (bucketName (t / 60 / 60 / 24), c),
        folderStep usizeMAX d.monthly (bucketName (t / 60 / 60 / 24 / 28), c)⟩ := by
      rw [persist, hreg]
      rfl
    have hrun : persistRun ((c, t) :: rest) d = persistRun rest (persist c t d) := rfl
    obtain ⟨h1, h2, h3, h4, h5⟩ := ih (persist c t d) c (by rw [hstep])
    rw [hrun]
    refine ⟨?_, ?_, ?_, ?_, h5⟩
    · rw [h1, hstep, histPairs, List.foldl_cons]
    · rw [h2, hstep, List.map_cons, List.foldl_cons]
    · rw [h3, hstep, List.map_cons, List.foldl_cons]
    · rw [h4, hstep, List.map_cons, List.foldl_cons]

/-- C5: over any run of more than 20 persist operations starting from an
existing registry file, with history filenames in strictly increasing
lexicographic order (as the encoded timestamps guarantee) and fewer than
`usize::MAX` writes: the history tier ends with exactly 20 files, the files of
the 20 most recent writes; the hourly tier holds at most 24 files and the
daily tier at most 30; and the monthly tier is never pruned — it holds
exactly one file per distinct 28-day bucket ever written. -/
theorem backup_retention (writes : List (Str × Nat)) (c0 : Str)
    (h20 : 20 < writes.length)
    (hN : writes.length < usizeMAX)
    (hmono : (writes.map fun w => bucketName w.2).Pairwise (· < ·)) :
    ((persistRun writes ⟨some c0, [], [], [], []⟩).history.map Prod.fst
        = (writes.map fun w => bucketName w.2).drop (writes.length - 20))
    ∧ (persistRun writes ⟨some c0, [], [], [], []⟩).history.length = 20
    ∧ (persistRun writes ⟨some c0, [], [], [], []⟩).hourly.length ≤ 24
    ∧ (persistRun writes ⟨some c0, [], [], [], []⟩).daily.length ≤ 30
    ∧ (∀ k : Str, k ∈ (persistRun writes ⟨some c0, [], [], [], []⟩).monthly.map Prod.fst
        ↔ k ∈ writes.map fun w => bucketName (w.2 / 60 / 60 / 24 / 28))
    ∧ ((persistRun writes ⟨some c0, [], [], [], []⟩).monthly.map Prod.fst).Nodup := by
  obtain ⟨h1, h2, h3, h4, -⟩ := persistRun_tiers writes ⟨some c0, [], [], [], []⟩ c0 rfl
  have hpw : (([] ++ histPairs c0 writes).map Prod.fst).Pairwise (· < ·) := by
    rw [List.nil_append, histPairs_map_fst]
    exact hmono
  have hhist : (persistRun writes ⟨some c0, [], [], [], []⟩).history
      = lastKeep 20 (histPairs c0 writes) := by
    rw [h1, foldFolder_eq_lastKeep 20 (histPairs c0 writes) [] (by simp) hpw,
      List.nil_append]
  refine ⟨?_, ?_, ?_, ?_, ?_, ?_⟩
  · rw [hhist, lastKeep, List.map_drop, histPairs_map_fst, histPairs_length]
  · rw [hhist, lastKeep, List.length_drop, histPairs_length]
    omega
  · rw [h2]
    exact foldFolder_length_le 24 _ [] (by simp)
  · rw [h3]
    exact foldFolder_length_le 30 _ [] (by simp)
  · intro k
    rw [h4, foldFolder_noPrune usizeMAX _ []
      (by simpa using le_of_lt hN), foldInsert_keys_mem]
    simp [List.map_map, Function.comp]
  · rw [h4]
    have hpm := foldFolder_keys_pairwise usizeMAX
      (writes.map fun w => (bucketName (w.2 / 60 / 60 / 24 / 28), w.1)) [] List.Pairwise.nil
    exact (List.pairwise_map.mpr hpm).imp fun h => ne_of_lt h

/-- A concrete run of 21 writes (timestamps 10..30 seconds) for the C5 witness. -/
def retentionWrites : List (Str × Nat) := (List.range 21).map fun i => (str "c", 10 + i)

/-- Witness for C5 at the concrete 21-write run. -/
theorem backup_retention_witness :
    (20 < retentionWrites.length ∧ retentionWrites.length < usizeMAX
      ∧ (retentionWrites.map fun w => bucketName w.2).Pairwise (· < ·))
    ∧ ((persistRun retentionWrites ⟨some (str "c0"), [], [], [], []⟩).history.map Prod.fst
        = (retentionWrites.map fun w => bucketName w.2).drop (retentionWrites.length - 20))
    ∧ (persistRun retentionWrites ⟨some (str "c0"), [], [], [], []⟩).history.length = 20
    ∧ (persistRun retentionWrites ⟨some (str "c0"), [], [], [], []⟩).hourly.length ≤ 24
    ∧ (persistRun retentionWrites ⟨some (str "c0"), [], [], [], []⟩).daily.length ≤ 30
    ∧ (∀ k : Str,
        k ∈ (persistRun retentionWrites ⟨some (str "c0"), [], [], [], []⟩).monthly.map Prod.fst
        ↔ k ∈ retentionWrites.map fun w => bucketName (w.2 / 60 / 60 / 24 / 28))
    ∧ ((persistRun retentionWrites
          ⟨some (str "c0"), [], [], [], []⟩).monthly.map Prod.fst).Nodup :=
  ⟨⟨by decide, by decide, by decide⟩,
    backup_retention retentionWrites (str "c0") (by decide) (by decide) (by decide)⟩

end BdsmBot
